import Mathlib

/-!
Shallow embedding of the reconciliation engine of `flow_tools`
(`gerrit_util.py`, `jira_util.py`, `orm.py`, `integrations.py`,
`__main__.py`).  Python strings that the code inspects character by
character are modelled as `List Char`; opaque identifiers (issue keys,
change ids, state names) are modelled as `String`.  Timestamps are
modelled as `Int`.  Fallible calls are modelled with an `ok : Bool`
flag carrying the partial state, because the sqlite commits performed
before a failure persist.
-/

namespace FlowTools

/-! ### String helpers (Python `str.strip`, `str.split`) -/

/-- Python `str.strip()`: remove leading and trailing whitespace. -/
def strip (s : List Char) : List Char :=
  ((s.dropWhile Char.isWhitespace).reverse.dropWhile Char.isWhitespace).reverse

/-- Python `line.split(':', 1)`: `some (before, after)` when the line
contains a colon (split at the first one), `none` otherwise. -/
def splitOnceColon : List Char → Option (List Char × List Char)
  | [] => none
  | c :: rest =>
    if c = ':' then some ([], rest)
    else
      match splitOnceColon rest with
      | some p => some (c :: p.1, p.2)
      | none => none

/-- Python `value.split(',')`: split at every comma (the empty string
yields one empty piece, matching Python). -/
def splitComma : List Char → List (List Char)
  | [] => [[]]
  | c :: rest =>
    if c = ',' then [] :: splitComma rest
    else
      match splitComma rest with
      | [] => [[c]]
      | g :: gs => (c :: g) :: gs

/-- Python `name.split('->', 1)`: `some (before, after)` when the string
contains the two-character separator, split at its first occurrence. -/
def splitFirstArrow : List Char → Option (List Char × List Char)
  | [] => none
  | c :: rest =>
    if c = '-' ∧ rest.head? = some '>' then some ([], rest.tail)
    else (splitFirstArrow rest).map fun p => (c :: p.1, p.2)

/-! ### `gerrit_util.get_message_meta` -/

/-- The structured record built by `gerrit_util.get_message_meta`. -/
structure MessageMeta where
  ChangeId : Option (List Char) := none
  BaseBranch : Option (List Char) := none
  FeatureBranch : Option (List Char) := none
  RelativeToBranch : Option (List Char) := none
  Closes : List (List Char) := []
  Resolves : List (List Char) := []
deriving Repr, DecidableEq

/-- `[item.strip() for item in value.strip().split(',')]`. -/
def parseIssueList (value : List Char) : List (List Char) :=
  (splitComma (strip value)).map strip

/-- One iteration of the line loop of `get_message_meta`. -/
def metaStep (m : MessageMeta) (line : List Char) : MessageMeta :=
  match splitOnceColon line with
  | none => m
  | some kv =>
    if kv.1 = "Feature-Branch".toList then { m with FeatureBranch := some (strip kv.2) }
    else if kv.1 = "Base-Branch".toList then { m with BaseBranch := some (strip kv.2) }
    else if kv.1 = "Relative-To-Branch".toList then { m with RelativeToBranch := some (strip kv.2) }
    else if kv.1 = "ChangeId".toList then { m with ChangeId := some (strip kv.2) }
    else if kv.1 = "Closes".toList then { m with Closes := m.Closes ++ parseIssueList kv.2 }
    else if kv.1 = "Resolves".toList then { m with Resolves := m.Resolves ++ parseIssueList kv.2 }
    else m

/-- `gerrit_util.get_message_meta`, over the lines of the commit message
(the `splitlines()` tokenisation is taken as input). -/
def get_message_meta (lines : List (List Char)) : MessageMeta :=
  lines.foldl metaStep {}

/-! ### `jira_util.get_transition_to` and `jira_util.is_nominal_transition` -/

/-- Destination-state extraction performed on one transition name inside
`get_transition_to`: the text after the first colon if a colon is
present, else the text after the first `->` if present, stripped;
`none` when the name matches neither format (the loop skips it). -/
def parseDest (name : List Char) : Option (List Char) :=
  match splitOnceColon name with
  | some p => some (strip p.2)
  | none =>
    match splitFirstArrow name with
    | some p => some (strip p.2)
    | none => none

/-- One iteration of the transition loop of `get_transition_to`:
append the observed destination and remember the id on a match. -/
def gttStep (target : List Char) (acc : Option String × List (List Char))
    (t : String × List Char) : Option String × List (List Char) :=
  match parseDest t.2 with
  | none => acc
  | some tstate =>
    (if tstate = target then some t.1 else acc.1, acc.2 ++ [tstate])

/-- `jira_util.get_transition_to`, over the list of available
transitions, each given as `(id, name)`.  Returns the id of the (last)
transition whose destination equals the target, together with every
destination name observed. -/
def get_transition_to (transitions : List (String × List Char))
    (target : List Char) : Option String × List (List Char) :=
  transitions.foldl (gttStep target) (none, [])

/-- A per-project nominal flow: current state name to allowed next
state names (a Python dict of lists). -/
abbrev Flow := List (String × List String)

/-- The full configuration: project key to flow (a Python dict of
dicts). -/
abbrev NomFlow := List (String × Flow)

/-- `jira_util.is_nominal_transition`:
`to_state in nominal_flow.get(from_state, [])`. -/
def is_nominal_transition (flow : Flow) (from_state to_state : String) : Bool :=
  ((flow.lookup from_state).getD []).contains to_state

/-- The forward check exactly as called at `integrations.py:213`:
`is_nominal_transition(nominal_flow.get(project_key, {}), from, to)`. -/
def is_forward (nf : NomFlow) (project_key from_state to_state : String) : Bool :=
  is_nominal_transition ((nf.lookup project_key).getD []) from_state to_state

/-- The configured allowed-next-states set for `from_state` under the
project, used to phrase the specification of `is_forward`. -/
def allowed_next (nf : NomFlow) (project_key from_state : String) : List String :=
  (((nf.lookup project_key).getD []).lookup from_state).getD []

/-! ### `orm.py`: the persisted store -/

/-- A row of `gerrit_jira_log` (`orm.GerritJiraTrans`); the timestamp
column is not modelled (real time). -/
structure TransEntry where
  issue : String
  from_status : String
  to_status : String
deriving Repr, DecidableEq

/-- A row of `poll_history` (`orm.PollHistory`). -/
structure PollRecord where
  period_start : Int
  period_end : Int
  status : Int
deriving Repr, DecidableEq

/-- The three tables of the store, each in `rid` (insertion) order.
`assocs` holds the `(issue, changeid)` rows of `gerrit_jira_map`. -/
structure Db where
  assocs : List (String × String)
  translog : List TransEntry
  poll_history : List PollRecord
deriving Repr, DecidableEq

/-- `sql.query(GerritJira).filter_by(issue=i, changeid=c).count()`. -/
def countPair (db : Db) (issue changeid : String) : Nat :=
  (db.assocs.filter fun r => r.1 == issue && r.2 == changeid).length

/-- `sql.query(GerritJira).filter_by(issue=i).count()`. -/
def countIssue (db : Db) (issue : String) : Nat :=
  (db.assocs.filter fun r => r.1 == issue).length

/-- `sql.query(GerritJira).filter_by(changeid=c).delete()`
(`integrations.py:160-165`, the abandoned-change cleanup). -/
def deleteAssocsForChange (db : Db) (changeid : String) : Db :=
  { db with assocs := db.assocs.filter fun r => !(r.2 == changeid) }

/-- The association upsert of `integrations.py:185-192`: insert (and
commit) a row only when the pair is not already present. -/
def upsertAssoc (db : Db) (issue changeid : String) : Db :=
  if countPair db issue changeid = 0 then
    { db with assocs := db.assocs ++ [(issue, changeid)] }
  else db

/-! ### `integrations.update_issues_from_review` -/

/-- The configured tag-to-state map (`config.gerrit_jira.tag_map`), a
dict with the two keys `Closes` and `Resolves`. -/
structure TagMap where
  closes : String
  resolves : String
deriving Repr, DecidableEq

/-- Python `tag_map.values()`. -/
def TagMap.values (tm : TagMap) : List String := [tm.closes, tm.resolves]

/-- The jira side, as far as the engine reads or writes it.
`issues` maps an issue key to its current status name (a missing key
raises `JIRAError`); `transitions` maps an issue key to its available
transitions as `(id, name)` pairs; `rejectResolution` (resp.
`rejectPlain`) lists the issues for which `transition_issue` raises
`JIRAError` on the resolution (resp. plain) path; `resolutions` is the
list of resolution names known to the tracker. -/
structure JiraState where
  issues : List (String × String)
  transitions : List (String × List (String × List Char))
  rejectResolution : List String
  rejectPlain : List String
  resolutions : List String
deriving Repr, DecidableEq

/-- Executing a transition moves the issue to the goal state. -/
def setIssueStatus (j : JiraState) (key status : String) : JiraState :=
  { j with issues := j.issues.map fun p => if p.1 == key then (p.1, status) else p }

/-- Observable actions of one poll run, in order. -/
inductive Event where
  | deletedAssocs (changeid : String)
  | insertedAssoc (issue changeid : String)
  | lookedUp (issue goal : String)
  | applied (issue tid goal : String) (withResolution : Bool)
  | spoofed (issue tid : String)
  | commented (issue : String)
  | logged (e : TransEntry)
deriving Repr, DecidableEq

/-- The goal-state computation of `integrations.py:194-201` (the
`ABANDONED` case never reaches this point). -/
def goal_state_of (status resolution : String) : String :=
  if status == "MERGED" then resolution
  else if status == "DRAFT" then "In Progress"
  else "In Review"

/-- Python `issue.key.split('-')[0]`. -/
def projectKeyOf (key : String) : String :=
  (key.toList.takeWhile fun c => !(c == '-')).asString

/-- Result of processing part of a run: the store, the tracker, the
events so far, and whether execution is still alive (`ok = false`
models an uncaught exception, whose committed effects persist). -/
structure StepResult where
  db : Db
  jira : JiraState
  events : List Event
  ok : Bool
deriving Repr, DecidableEq

/-- The body of the `for issue_key, resolution in resolutions` loop of
`update_issues_from_review` (`integrations.py:176-255`) for one pair. -/
def processPair (tm : TagMap) (nf : NomFlow) (dry_run : Bool)
    (status change_id : String) (jira : JiraState) (db : Db)
    (issue_key resolution : String) : StepResult :=
  match jira.issues.lookup issue_key with
  | none => ⟨db, jira, [], true⟩
  | some current_status =>
    let inserted := countPair db issue_key change_id = 0
    let db1 := upsertAssoc db issue_key change_id
    let ev1 : List Event :=
      if inserted then [.insertedAssoc issue_key change_id] else []
    let goal := goal_state_of status resolution
    if '-' ∈ issue_key.toList then
      if is_forward nf (projectKeyOf issue_key) current_status goal then
        if countIssue db1 issue_key > 1 then ⟨db1, jira, ev1, true⟩
        else
          let found :=
            get_transition_to ((jira.transitions.lookup issue_key).getD [])
              goal.toList
          let ev2 := ev1 ++ [.lookedUp issue_key goal]
          match found.1 with
          | none => ⟨db1, jira, ev2, true⟩
          | some tid =>
            if dry_run then ⟨db1, jira, ev2, true⟩
            else
              let entry : TransEntry := ⟨issue_key, current_status, goal⟩
              if goal ∈ tm.values then
                if issue_key ∈ jira.rejectResolution then
                  ⟨{ db1 with translog := db1.translog ++ [entry] }, jira,
                    ev2 ++ [.spoofed issue_key tid, .logged entry], true⟩
                else
                  ⟨{ db1 with translog := db1.translog ++ [entry] },
                    setIssueStatus jira issue_key goal,
                    ev2 ++ [.applied issue_key tid goal true,
                            .commented issue_key, .logged entry], true⟩
              else
                if issue_key ∈ jira.rejectPlain then ⟨db1, jira, ev2, false⟩
                else
                  ⟨{ db1 with translog := db1.translog ++ [entry] },
                    setIssueStatus jira issue_key goal,
                    ev2 ++ [.applied issue_key tid goal false,
                            .commented issue_key, .logged entry], true⟩
      else ⟨db1, jira, ev1, true⟩
    else ⟨db1, jira, ev1, true⟩

/-- The pair loop, stopping at the first uncaught exception. -/
def processPairs (tm : TagMap) (nf : NomFlow) (dry_run : Bool)
    (status change_id : String) :
    JiraState → Db → List (String × String) → StepResult
  | jira, db, [] => ⟨db, jira, [], true⟩
  | jira, db, p :: ps =>
    let r := processPair tm nf dry_run status change_id jira db p.1 p.2
    if r.ok then
      let r2 := processPairs tm nf dry_run status change_id r.jira r.db ps
      ⟨r2.db, r2.jira, r.events ++ r2.events, r2.ok⟩
    else r

/-- One element of a gerrit `changes` response, with the commit message
of its current revision (fetched at `integrations.py:168-170`); a
`none` message models a commit-fetch response without a `message`
field, which raises `RuntimeError` (`gerrit_util.py:90-91`). -/
structure ChangeInfo where
  status : String
  change_id : String
  current_revision : String
  message : Option (List (List Char))
deriving Repr, DecidableEq

/-- `integrations.py:171-174`: the `(issue, tag_map[key])` pairs, for
`key` in `['Closes', 'Resolves']` in that order. -/
def resolutionsOf (tm : TagMap) (meta : MessageMeta) : List (String × String) :=
  meta.Closes.map (fun i => (i.asString, tm.closes))
    ++ meta.Resolves.map (fun i => (i.asString, tm.resolves))

/-- The body of the `for changeinfo in response` loop
(`integrations.py:156-255`) for one change. -/
def processChange (tm : TagMap) (nf : NomFlow) (dry_run : Bool)
    (jira : JiraState) (db : Db) (ci : ChangeInfo) : StepResult :=
  if ci.status == "ABANDONED" then
    ⟨deleteAssocsForChange db ci.change_id, jira,
      [.deletedAssocs ci.change_id], true⟩
  else
    match ci.message with
    | none => ⟨db, jira, [], false⟩
    | some lines =>
      processPairs tm nf dry_run ci.status ci.change_id jira db
        (resolutionsOf tm (get_message_meta lines))

/-- The change loop, stopping at the first uncaught exception. -/
def processChanges (tm : TagMap) (nf : NomFlow) (dry_run : Bool) :
    JiraState → Db → List ChangeInfo → StepResult
  | jira, db, [] => ⟨db, jira, [], true⟩
  | jira, db, ci :: cs =>
    let r := processChange tm nf dry_run jira db ci
    if r.ok then
      let r2 := processChanges tm nf dry_run r.jira r.db cs
      ⟨r2.db, r2.jira, r.events ++ r2.events, r2.ok⟩
    else r

/-- `integrations.update_issues_from_review`.  The startup scan for a
`Done` resolution asserts (`integrations.py:143-148`); `fetch_ok =
false` models a gerrit fetch failure; pagination is flattened into the
input list of changes. -/
def update_issues_from_review (tm : TagMap) (nf : NomFlow)
    (dry_run fetch_ok : Bool) (jira : JiraState) (db : Db)
    (changes : List ChangeInfo) : StepResult :=
  if "Done" ∈ jira.resolutions then
    if fetch_ok then processChanges tm nf dry_run jira db changes
    else ⟨db, jira, [], false⟩
  else ⟨db, jira, [], false⟩

/-! ### `__main__.IncrementJiraFromGerrit.run_args` -/

/-- The most recent `status=0` poll record:
`filter_by(status=0).order_by(rid.desc()).slice(0, 1)`. -/
def lastSuccess (h : List PollRecord) : Option PollRecord :=
  (h.filter fun r => r.status == 0).getLast?

/-- The computed window start (`__main__.py:209-220`): the
`period_end` of the most recent SUCCESS record, defaulting to one
lookback length before now. -/
def next_window_start (h : List PollRecord) (now week_len : Int) : Int :=
  match lastSuccess h with
  | some r => r.period_end
  | none => now - week_len

/-- `IncrementJiraFromGerrit.run_args` (`__main__.py:209-238`): compute
the window, run the update, and in the `finally` block append one
`PollHistory` record — status `0` on success, the initial `-1`
otherwise — unless `dry_run` is set. -/
def increment_run (tm : TagMap) (nf : NomFlow) (dry_run fetch_ok : Bool)
    (jira : JiraState) (db : Db) (changes : List ChangeInfo)
    (now week_len : Int) : StepResult :=
  let start := next_window_start db.poll_history now week_len
  let r := update_issues_from_review tm nf dry_run fetch_ok jira db changes
  let st : Int := if r.ok then 0 else -1
  if dry_run then r
  else
    ⟨{ r.db with poll_history := r.db.poll_history ++ [⟨start, now, st⟩] },
      r.jira, r.events, r.ok⟩

/-! ## Helper lemmas -/

theorem countPair_eq_zero_iff (db : Db) (i c : String) :
    countPair db i c = 0 ↔ (i, c) ∉ db.assocs := by
  unfold countPair
  rw [List.length_eq_zero, List.filter_eq_nil_iff]
  constructor
  · intro h hmem
    have := h _ hmem
    simp at this
  · rintro h ⟨a, b⟩ hmem hab
    simp only [Bool.and_eq_true, beq_iff_eq] at hab
    obtain ⟨rfl, rfl⟩ := hab
    exact h hmem

theorem upsert_noop (db : Db) (i c : String) (h : countPair db i c ≠ 0) :
    upsertAssoc db i c = db := by
  simp [upsertAssoc, h]

theorem mem_upsert (db : Db) (i c : String) :
    (i, c) ∈ (upsertAssoc db i c).assocs := by
  unfold upsertAssoc
  split
  · simp
  · next h1 =>
    have h2 : ¬ (i, c) ∉ db.assocs :=
      fun hn => h1 ((countPair_eq_zero_iff db i c).mpr hn)
    exact not_not.mp h2

theorem countPair_upsert_ne (db : Db) (i c : String) :
    countPair (upsertAssoc db i c) i c ≠ 0 :=
  fun h0 => (countPair_eq_zero_iff _ i c).mp h0 (mem_upsert db i c)

theorem nodup_upsert (db : Db) (i c : String) (h : db.assocs.Nodup) :
    (upsertAssoc db i c).assocs.Nodup := by
  unfold upsertAssoc
  split
  · next h0 =>
    have hnm : (i, c) ∉ db.assocs := (countPair_eq_zero_iff db i c).mp h0
    simp [List.nodup_append, h, hnm]
  · exact h

theorem processPair_assocs (tm : TagMap) (nf : NomFlow) (dr : Bool)
    (st cid : String) (jira : JiraState) (db : Db) (ik res : String) :
    (processPair tm nf dr st cid jira db ik res).db.assocs = db.assocs ∨
    (processPair tm nf dr st cid jira db ik res).db.assocs
      = (upsertAssoc db ik cid).assocs := by
  simp only [processPair]
  split
  · exact Or.inl rfl
  · repeat' split
    all_goals first | exact Or.inl rfl | exact Or.inr rfl

theorem nodup_processPairs (tm : TagMap) (nf : NomFlow) (dr : Bool)
    (st cid : String) :
    ∀ (ps : List (String × String)) (jira : JiraState) (db : Db),
      db.assocs.Nodup →
      (processPairs tm nf dr st cid jira db ps).db.assocs.Nodup := by
  intro ps
  induction ps with
  | nil => intro jira db h; exact h
  | cons p ps ih =>
    intro jira db h
    have hp : (processPair tm nf dr st cid jira db p.1 p.2).db.assocs.Nodup := by
      rcases processPair_assocs tm nf dr st cid jira db p.1 p.2 with h1 | h1
      · rw [h1]; exact h
      · rw [h1]; exact nodup_upsert db p.1 cid h
    simp only [processPairs]
    split
    · exact ih _ _ hp
    · exact hp

theorem nodup_processChange (tm : TagMap) (nf : NomFlow) (dr : Bool)
    (jira : JiraState) (db : Db) (ci : ChangeInfo) (h : db.assocs.Nodup) :
    (processChange tm nf dr jira db ci).db.assocs.Nodup := by
  simp only [processChange, deleteAssocsForChange]
  split
  · exact List.Nodup.filter _ h
  · split
    · exact h
    · exact nodup_processPairs tm nf dr ci.status ci.change_id _ jira db h

theorem nodup_processChanges (tm : TagMap) (nf : NomFlow) (dr : Bool) :
    ∀ (cs : List ChangeInfo) (jira : JiraState) (db : Db),
      db.assocs.Nodup →
      (processChanges tm nf dr jira db cs).db.assocs.Nodup := by
  intro cs
  induction cs with
  | nil => intro jira db h; exact h
  | cons ci cs ih =>
    intro jira db h
    have hp := nodup_processChange tm nf dr jira db ci h
    simp only [processChanges]
    split
    · exact ih _ _ hp
    · exact hp

theorem upsert_translog (db : Db) (i c : String) :
    (upsertAssoc db i c).translog = db.translog := by
  unfold upsertAssoc; split <;> rfl

theorem upsert_poll (db : Db) (i c : String) :
    (upsertAssoc db i c).poll_history = db.poll_history := by
  unfold upsertAssoc; split <;> rfl

theorem processPair_poll (tm : TagMap) (nf : NomFlow) (dr : Bool)
    (st cid : String) (jira : JiraState) (db : Db) (ik res : String) :
    (processPair tm nf dr st cid jira db ik res).db.poll_history
      = db.poll_history := by
  simp only [processPair]
  split
  · rfl
  · repeat' split
    all_goals simp [upsert_poll]

theorem processPairs_poll (tm : TagMap) (nf : NomFlow) (dr : Bool)
    (st cid : String) :
    ∀ (ps : List (String × String)) (jira : JiraState) (db : Db),
      (processPairs tm nf dr st cid jira db ps).db.poll_history
        = db.poll_history := by
  intro ps
  induction ps with
  | nil => intro jira db; rfl
  | cons p ps ih =>
    intro jira db
    simp only [processPairs]
    split
    · rw [ih, processPair_poll]
    · exact processPair_poll tm nf dr st cid jira db p.1 p.2

theorem processChange_poll (tm : TagMap) (nf : NomFlow) (dr : Bool)
    (jira : JiraState) (db : Db) (ci : ChangeInfo) :
    (processChange tm nf dr jira db ci).db.poll_history = db.poll_history := by
  simp only [processChange]
  split
  · rfl
  · split
    · rfl
    · exact processPairs_poll tm nf dr ci.status ci.change_id _ jira db

theorem processChanges_poll (tm : TagMap) (nf : NomFlow) (dr : Bool) :
    ∀ (cs : List ChangeInfo) (jira : JiraState) (db : Db),
      (processChanges tm nf dr jira db cs).db.poll_history
        = db.poll_history := by
  intro cs
  induction cs with
  | nil => intro jira db; rfl
  | cons ci cs ih =>
    intro jira db
    simp only [processChanges]
    split
    · rw [ih, processChange_poll]
    · exact processChange_poll tm nf dr jira db ci

/-- The events a dry run may produce: association bookkeeping and
transition discovery, but no application, comment or audit entry. -/
def dryAllowed : Event → Bool
  | .deletedAssocs _ => true
  | .insertedAssoc _ _ => true
  | .lookedUp _ _ => true
  | _ => false

theorem processPair_dry (tm : TagMap) (nf : NomFlow)
    (st cid : String) (jira : JiraState) (db : Db) (ik res : String) :
    (processPair tm nf true st cid jira db ik res).jira = jira
  ∧ (processPair tm nf true st cid jira db ik res).db.translog = db.translog
  ∧ ((processPair tm nf true st cid jira db ik res).events).all dryAllowed
      = true := by
  simp only [processPair]
  split
  · exact ⟨rfl, rfl, rfl⟩
  · repeat' split
    all_goals
      first
        | (exfalso; exact absurd trivial (by assumption))
        | exact ⟨rfl, by simp [upsert_translog], rfl⟩

theorem processPairs_dry (tm : TagMap) (nf : NomFlow) (st cid : String) :
    ∀ (ps : List (String × String)) (jira : JiraState) (db : Db),
      (processPairs tm nf true st cid jira db ps).jira = jira
    ∧ (processPairs tm nf true st cid jira db ps).db.translog = db.translog
    ∧ ((processPairs tm nf true st cid jira db ps).events).all dryAllowed
        = true := by
  intro ps
  induction ps with
  | nil => intro jira db; exact ⟨rfl, rfl, rfl⟩
  | cons p ps ih =>
    intro jira db
    obtain ⟨h1, h2, h3⟩ := processPair_dry tm nf st cid jira db p.1 p.2
    obtain ⟨g1, g2, g3⟩ :=
      ih (processPair tm nf true st cid jira db p.1 p.2).jira
        (processPair tm nf true st cid jira db p.1 p.2).db
    simp only [processPairs]
    split
    · exact ⟨by rw [g1, h1], by rw [g2, h2], by simp [List.all_append, h3, g3]⟩
    · exact ⟨h1, h2, h3⟩

theorem processChange_dry (tm : TagMap) (nf : NomFlow)
    (jira : JiraState) (db : Db) (ci : ChangeInfo) :
    (processChange tm nf true jira db ci).jira = jira
  ∧ (processChange tm nf true jira db ci).db.translog = db.translog
  ∧ ((processChange tm nf true jira db ci).events).all dryAllowed = true := by
  simp only [processChange]
  split
  · exact ⟨rfl, rfl, rfl⟩
  · split
    · exact ⟨rfl, rfl, rfl⟩
    · exact processPairs_dry tm nf ci.status ci.change_id _ jira db

theorem processChanges_dry (tm : TagMap) (nf : NomFlow) :
    ∀ (cs : List ChangeInfo) (jira : JiraState) (db : Db),
      (processChanges tm nf true jira db cs).jira = jira
    ∧ (processChanges tm nf true jira db cs).db.translog = db.translog
    ∧ ((processChanges tm nf true jira db cs).events).all dryAllowed = true := by
  intro cs
  induction cs with
  | nil => intro jira db; exact ⟨rfl, rfl, rfl⟩
  | cons ci cs ih =>
    intro jira db
    obtain ⟨h1, h2, h3⟩ := processChange_dry tm nf jira db ci
    obtain ⟨g1, g2, g3⟩ :=
      ih (processChange tm nf true jira db ci).jira
        (processChange tm nf true jira db ci).db
    simp only [processChanges]
    split
    · exact ⟨by rw [g1, h1], by rw [g2, h2], by simp [List.all_append, h3, g3]⟩
    · exact ⟨h1, h2, h3⟩

theorem update_issues_dry (tm : TagMap) (nf : NomFlow) (fo : Bool)
    (jira : JiraState) (db : Db) (cs : List ChangeInfo) :
    (update_issues_from_review tm nf true fo jira db cs).jira = jira
  ∧ (update_issues_from_review tm nf true fo jira db cs).db.translog
      = db.translog
  ∧ (update_issues_from_review tm nf true fo jira db cs).db.poll_history
      = db.poll_history
  ∧ ((update_issues_from_review tm nf true fo jira db cs).events).all dryAllowed
      = true := by
  obtain ⟨h1, h2, h3⟩ := processChanges_dry tm nf cs jira db
  have h4 := processChanges_poll tm nf true cs jira db
  simp only [update_issues_from_review]
  split
  · split
    · exact ⟨h1, h2, h4, h3⟩
    · exact ⟨rfl, rfl, rfl, rfl⟩
  · exact ⟨rfl, rfl, rfl, rfl⟩

/-- The audit entry carried by a `logged` event. -/
def loggedOf : Event → Option TransEntry
  | .logged t => some t
  | _ => none

/-- The events marking an execution of `transition_issue`: an actual
application, or the caught rejection that the code spoofs. -/
def appliesOrSpoofs : Event → Bool
  | .applied _ _ _ _ => true
  | .spoofed _ _ => true
  | _ => false

theorem processPair_translog (tm : TagMap) (nf : NomFlow) (dr : Bool)
    (st cid : String) (jira : JiraState) (db : Db) (ik res : String) :
    (processPair tm nf dr st cid jira db ik res).db.translog
      = db.translog
        ++ ((processPair tm nf dr st cid jira db ik res).events).filterMap loggedOf
  ∧ (((processPair tm nf dr st cid jira db ik res).events).filter
        (fun e => appliesOrSpoofs e)).length
      = (((processPair tm nf dr st cid jira db ik res).events).filterMap
          loggedOf).length := by
  simp only [processPair]
  split
  · exact ⟨by simp, rfl⟩
  · repeat' split
    all_goals constructor
    all_goals simp [upsert_translog, loggedOf, appliesOrSpoofs]

theorem processPairs_translog (tm : TagMap) (nf : NomFlow) (dr : Bool)
    (st cid : String) :
    ∀ (ps : List (String × String)) (jira : JiraState) (db : Db),
      (processPairs tm nf dr st cid jira db ps).db.translog
        = db.translog
          ++ ((processPairs tm nf dr st cid jira db ps).events).filterMap loggedOf
    ∧ (((processPairs tm nf dr st cid jira db ps).events).filter
          (fun e => appliesOrSpoofs e)).length
        = (((processPairs tm nf dr st cid jira db ps).events).filterMap
            loggedOf).length := by
  intro ps
  induction ps with
  | nil => intro jira db; exact ⟨by simp [processPairs], rfl⟩
  | cons p ps ih =>
    intro jira db
    obtain ⟨h1, h2⟩ := processPair_translog tm nf dr st cid jira db p.1 p.2
    obtain ⟨g1, g2⟩ :=
      ih (processPair tm nf dr st cid jira db p.1 p.2).jira
        (processPair tm nf dr st cid jira db p.1 p.2).db
    simp only [processPairs]
    split
    · constructor
      · simp [List.filterMap_append, g1, h1, List.append_assoc]
      · simp [List.filter_append, List.filterMap_append, List.length_append,
          h2, g2]
    · exact ⟨h1, h2⟩

theorem processChange_translog (tm : TagMap) (nf : NomFlow) (dr : Bool)
    (jira : JiraState) (db : Db) (ci : ChangeInfo) :
    (processChange tm nf dr jira db ci).db.translog
      = db.translog
        ++ ((processChange tm nf dr jira db ci).events).filterMap loggedOf
  ∧ (((processChange tm nf dr jira db ci).events).filter
        (fun e => appliesOrSpoofs e)).length
      = (((processChange tm nf dr jira db ci).events).filterMap
          loggedOf).length := by
  simp only [processChange]
  split
  · exact ⟨by simp [deleteAssocsForChange, loggedOf],
      by simp [loggedOf, appliesOrSpoofs]⟩
  · split
    · exact ⟨by simp, rfl⟩
    · exact processPairs_translog tm nf dr ci.status ci.change_id _ jira db

theorem countIssue_pos_of_mem (db : Db) (i c : String)
    (h : (i, c) ∈ db.assocs) : 1 ≤ countIssue db i := by
  have hf : (i, c) ∈ db.assocs.filter (fun r => r.1 == i) :=
    List.mem_filter.mpr ⟨h, by simp⟩
  have := List.length_pos.mpr (List.ne_nil_of_mem hf)
  simpa [countIssue] using this

/-- The events that witness a transition lookup or application
attempt. -/
def attemptsTransition : Event → Bool
  | .lookedUp _ _ => true
  | .applied _ _ _ _ => true
  | .spoofed _ _ => true
  | _ => false

theorem update_issues_poll (tm : TagMap) (nf : NomFlow) (dr fo : Bool)
    (jira : JiraState) (db : Db) (cs : List ChangeInfo) :
    (update_issues_from_review tm nf dr fo jira db cs).db.poll_history
      = db.poll_history := by
  simp only [update_issues_from_review]
  split
  · split
    · exact processChanges_poll tm nf dr cs jira db
    · rfl
  · rfl


/-- The keys recognized by `get_message_meta`. -/
def recognizedKeys : List (List Char) :=
  ["Feature-Branch".toList, "Base-Branch".toList, "Relative-To-Branch".toList,
    "ChangeId".toList, "Closes".toList, "Resolves".toList]

/-- The Resolves issues a single line contributes. -/
def resolvesContrib (line : List Char) : List (List Char) :=
  match splitOnceColon line with
  | some kv => if kv.1 = "Resolves".toList then parseIssueList kv.2 else []
  | none => []

/-- The Closes issues a single line contributes. -/
def closesContrib (line : List Char) : List (List Char) :=
  match splitOnceColon line with
  | some kv => if kv.1 = "Closes".toList then parseIssueList kv.2 else []
  | none => []

theorem metaStep_Resolves (m : MessageMeta) (line : List Char) :
    (metaStep m line).Resolves = m.Resolves ++ resolvesContrib line := by
  cases hsp : splitOnceColon line with
  | none => simp [metaStep, resolvesContrib, hsp]
  | some kv =>
    have d1 : ¬("Feature-Branch".toList = "Resolves".toList) := by decide
    have d2 : ¬("Base-Branch".toList = "Resolves".toList) := by decide
    have d3 : ¬("Relative-To-Branch".toList = "Resolves".toList) := by decide
    have d4 : ¬("ChangeId".toList = "Resolves".toList) := by decide
    have d5 : ¬("Closes".toList = "Resolves".toList) := by decide
    simp only [metaStep, resolvesContrib, hsp]
    repeat' split
    all_goals simp_all

theorem metaStep_Closes (m : MessageMeta) (line : List Char) :
    (metaStep m line).Closes = m.Closes ++ closesContrib line := by
  cases hsp : splitOnceColon line with
  | none => simp [metaStep, closesContrib, hsp]
  | some kv =>
    have d1 : ¬("Feature-Branch".toList = "Closes".toList) := by decide
    have d2 : ¬("Base-Branch".toList = "Closes".toList) := by decide
    have d3 : ¬("Relative-To-Branch".toList = "Closes".toList) := by decide
    have d4 : ¬("ChangeId".toList = "Closes".toList) := by decide
    have d5 : ¬("Resolves".toList = "Closes".toList) := by decide
    simp only [metaStep, closesContrib, hsp]
    repeat' split
    all_goals simp_all

theorem foldl_metaStep_Resolves :
    ∀ (lines : List (List Char)) (m : MessageMeta),
      (lines.foldl metaStep m).Resolves
        = m.Resolves ++ (lines.map resolvesContrib).flatten := by
  intro lines
  induction lines with
  | nil => intro m; simp
  | cons l ls ih =>
    intro m
    simp [List.foldl_cons, ih, metaStep_Resolves, List.append_assoc]

theorem foldl_metaStep_Closes :
    ∀ (lines : List (List Char)) (m : MessageMeta),
      (lines.foldl metaStep m).Closes
        = m.Closes ++ (lines.map closesContrib).flatten := by
  intro lines
  induction lines with
  | nil => intro m; simp
  | cons l ls ih =>
    intro m
    simp [List.foldl_cons, ih, metaStep_Closes, List.append_assoc]

theorem splitOnceColon_append (key value : List Char) (h : ':' ∉ key) :
    splitOnceColon (key ++ ':' :: value) = some (key, value) := by
  induction key with
  | nil => simp [splitOnceColon]
  | cons c k ih =>
    have hc : ¬(c = ':') := fun e => h (by simp [e])
    have hk : ':' ∉ k := fun hm => h (List.mem_cons_of_mem _ hm)
    simp [splitOnceColon, hc, ih hk]

theorem dropWhile_idem (p : Char → Bool) (l : List Char) :
    (l.dropWhile p).dropWhile p = l.dropWhile p := by
  induction l with
  | nil => rfl
  | cons c t ih =>
    by_cases h : p c = true
    · simp [List.dropWhile_cons, h, ih]
    · simp [List.dropWhile_cons, h]

theorem head?_dropWhile_not (p : Char → Bool) :
    ∀ (l : List Char) (c : Char), (l.dropWhile p).head? = some c → p c = false := by
  intro l
  induction l with
  | nil => intro c h; simp at h
  | cons a t ih =>
    intro c h
    by_cases ha : p a = true
    · exact ih c (by simpa [List.dropWhile_cons, ha] using h)
    · rw [List.dropWhile_cons, if_neg (by simp [ha])] at h
      simp at h
      rw [← h]
      simpa using ha

theorem dropWhile_of_head? (p : Char → Bool) (l : List Char) (c : Char)
    (hh : l.head? = some c) (hc : p c = false) : l.dropWhile p = l := by
  cases l with
  | nil => rfl
  | cons a t =>
    simp at hh
    rw [List.dropWhile_cons, if_neg (by rw [hh]; simp [hc])]

theorem getLast?_dropWhile (p : Char → Bool) :
    ∀ (l : List Char), l.dropWhile p ≠ [] →
      (l.dropWhile p).getLast? = l.getLast? := by
  intro l
  induction l with
  | nil => intro h; rfl
  | cons a t ih =>
    intro h
    by_cases ha : p a = true
    · rw [List.dropWhile_cons, if_pos ha] at h ⊢
      cases t with
      | nil => simp at h
      | cons b u =>
        rw [List.getLast?_cons_cons]
        exact ih h
    · rw [List.dropWhile_cons, if_neg (by simp [ha])]

theorem strip_idem (l : List Char) : strip (strip l) = strip l := by
  by_cases hnil : strip l = []
  · rw [hnil]; rfl
  · have hBne : (l.dropWhile Char.isWhitespace).reverse.dropWhile
        Char.isWhitespace ≠ [] := by
      intro e
      apply hnil
      simp [strip, e]
    have hA : ((strip l).reverse).dropWhile Char.isWhitespace
        = (strip l).reverse := by
      have hrev : (strip l).reverse
          = (l.dropWhile Char.isWhitespace).reverse.dropWhile
              Char.isWhitespace := by
        simp [strip]
      rw [hrev]
      exact dropWhile_idem _ _
    have hh : (strip l).head? = (l.dropWhile Char.isWhitespace).head? := by
      have h1 : (strip l).head?
          = ((l.dropWhile Char.isWhitespace).reverse.dropWhile
              Char.isWhitespace).getLast? := by
        rw [show strip l = ((l.dropWhile Char.isWhitespace).reverse.dropWhile
            Char.isWhitespace).reverse from rfl, List.head?_reverse]
      rw [h1, getLast?_dropWhile _ _ hBne, List.getLast?_reverse]
    cases hc : (strip l).head? with
    | none => exact absurd (List.head?_eq_none_iff.mp hc) hnil
    | some c =>
      have hcw : Char.isWhitespace c = false := by
        apply head?_dropWhile_not Char.isWhitespace l c
        rw [← hh]
        exact hc
      have hC : (strip l).dropWhile Char.isWhitespace = strip l :=
        dropWhile_of_head? _ _ c hc hcw
      calc strip (strip l)
          = (((strip l).dropWhile Char.isWhitespace).reverse.dropWhile
              Char.isWhitespace).reverse := rfl
        _ = (((strip l).reverse).dropWhile Char.isWhitespace).reverse := by
              rw [hC]
        _ = ((strip l).reverse).reverse := by rw [hA]
        _ = strip l := List.reverse_reverse _

theorem parseIssueList_trimmed (value x : List Char)
    (h : x ∈ parseIssueList value) : strip x = x := by
  unfold parseIssueList at h
  obtain ⟨y, _, rfl⟩ := List.mem_map.mp h
  exact strip_idem y


theorem splitOnceColon_of_not_mem (l : List Char) (h : ':' ∉ l) :
    splitOnceColon l = none := by
  induction l with
  | nil => rfl
  | cons c t ih =>
    have hc : ¬(c = ':') := fun e => h (by simp [e])
    have ht : ':' ∉ t := fun hm => h (List.mem_cons_of_mem _ hm)
    simp [splitOnceColon, hc, ih ht]

theorem splitFirstArrow_append (f rest : List Char)
    (h : splitFirstArrow f = none) :
    splitFirstArrow (f ++ ' ' :: '-' :: '>' :: rest) = some (f ++ [' '], rest) := by
  induction f with
  | nil => simp [splitFirstArrow]
  | cons c f' ih =>
    rw [splitFirstArrow] at h
    split at h
    · simp at h
    · next hcond =>
      have hf' : splitFirstArrow f' = none := by
        rcases Option.map_eq_none'.mp h with h2
        exact h2
      have hcond2 : ¬(c = '-' ∧ (f' ++ ' ' :: '-' :: '>' :: rest).head? = some '>') := by
        cases f' with
        | nil => simp
        | cons d f'' =>
          intro ⟨e1, e2⟩
          simp at e2
          exact hcond ⟨e1, by simp [e2]⟩
      rw [List.cons_append, splitFirstArrow, if_neg hcond2, ih hf']
      rfl

theorem strip_space (t : List Char) : strip (' ' :: t) = strip t := by
  simp [strip, List.dropWhile_cons, (by decide : Char.isWhitespace ' ' = true)]

theorem parseDest_colon (f t : List Char) (h : ':' ∉ f) :
    parseDest (f ++ ':' :: ' ' :: t) = some (strip t) := by
  rw [parseDest, splitOnceColon_append f (' ' :: t) h]
  simp [strip_space]

theorem parseDest_arrow (f t : List Char) (hcf : ':' ∉ f) (hct : ':' ∉ t)
    (ha : splitFirstArrow f = none) :
    parseDest (f ++ ' ' :: '-' :: '>' :: ' ' :: t) = some (strip t) := by
  have hnc : ':' ∉ f ++ ' ' :: '-' :: '>' :: ' ' :: t := by
    simp only [List.mem_append, List.mem_cons]
    push_neg
    exact ⟨hcf, by decide, by decide, by decide, by decide, hct⟩
  rw [parseDest, splitOnceColon_of_not_mem _ hnc,
    splitFirstArrow_append f (' ' :: t) ha]
  simp [strip_space]

theorem gtt_snd (target : List Char) :
    ∀ (ts : List (String × List Char)) (acc : Option String × List (List Char)),
      (ts.foldl (gttStep target) acc).2
        = acc.2 ++ ts.filterMap (fun t => parseDest t.2) := by
  intro ts
  induction ts with
  | nil => intro acc; simp
  | cons t ts ih =>
    intro acc
    rw [List.foldl_cons]
    cases hp : parseDest t.2 with
    | none => simp [gttStep, hp, ih, List.filterMap_cons]
    | some v => simp [gttStep, hp, ih, List.filterMap_cons, List.append_assoc]

theorem gtt_fst_none (target : List Char) :
    ∀ (ts : List (String × List Char)) (acc : Option String × List (List Char)),
      ((ts.foldl (gttStep target) acc).1 = none ↔
        acc.1 = none ∧ ∀ p ∈ ts, parseDest p.2 ≠ some target) := by
  intro ts
  induction ts with
  | nil => intro acc; simp
  | cons t ts ih =>
    intro acc
    rw [List.foldl_cons]
    cases hp : parseDest t.2 with
    | none =>
      rw [show gttStep target acc t = acc by simp [gttStep, hp], ih]
      simp [hp]
    | some v =>
      by_cases hv : v = target
      · rw [show gttStep target acc t = (some t.1, acc.2 ++ [v]) by
            simp [gttStep, hp, hv], ih]
        simp [hp, hv]
      · rw [show gttStep target acc t = (acc.1, acc.2 ++ [v]) by
            simp [gttStep, hp, hv], ih]
        simp [hp, hv]

theorem gtt_fst_some (target : List Char) :
    ∀ (ts : List (String × List Char)) (acc : Option String × List (List Char))
      (tid : String),
      (ts.foldl (gttStep target) acc).1 = some tid →
      acc.1 = some tid ∨
        ∃ name, (tid, name) ∈ ts ∧ parseDest name = some target := by
  intro ts
  induction ts with
  | nil => intro acc tid h; exact Or.inl h
  | cons t ts ih =>
    intro acc tid h
    rw [List.foldl_cons] at h
    rcases ih (gttStep target acc t) tid h with h1 | ⟨name, hm, hp⟩
    · cases hp : parseDest t.2 with
      | none =>
        rw [show gttStep target acc t = acc by simp [gttStep, hp]] at h1
        exact Or.inl h1
      | some v =>
        by_cases hv : v = target
        · rw [show gttStep target acc t = (some t.1, acc.2 ++ [v]) by
              simp [gttStep, hp, hv]] at h1
          simp at h1
          right
          refine ⟨t.2, ?_, by rw [hp, hv]⟩
          rw [← h1]
          simp
        · rw [show gttStep target acc t = (acc.1, acc.2 ++ [v]) by
              simp [gttStep, hp, hv]] at h1
          exact Or.inl h1
    · exact Or.inr ⟨name, List.mem_cons_of_mem _ hm, hp⟩

/-! ## Claims -/

/-- Claim C1: the forward-transition check returns true iff `to_state`
is a member of the configured allowed-next-states set for `from_state`
under the project; a project with no configured flow, or a
`from_state` with no entry, yields false for every `to_state` (fail
closed); for the flow with A allowing B and B allowing C, the
transition C to B is rejected and A to B is accepted. -/
theorem C1_is_forward_spec :
    (∀ (nf : NomFlow) (pk f t : String),
        is_forward nf pk f t = true ↔ t ∈ allowed_next nf pk f)
  ∧ (∀ (nf : NomFlow) (pk f t : String), nf.lookup pk = none →
        is_forward nf pk f t = false)
  ∧ (∀ (nf : NomFlow) (pk f t : String),
        ((nf.lookup pk).getD []).lookup f = none → is_forward nf pk f t = false)
  ∧ is_nominal_transition [("A", ["B"]), ("B", ["C"])] "C" "B" = false
  ∧ is_nominal_transition [("A", ["B"]), ("B", ["C"])] "A" "B" = true := by
  refine ⟨?_, ?_, ?_, by decide, by decide⟩
  · intro nf pk f t
    simp [is_forward, is_nominal_transition, allowed_next]
  · intro nf pk f t h
    simp [is_forward, is_nominal_transition, h]
  · intro nf pk f t h
    simp [is_forward, is_nominal_transition, h]

/-- Witness for C1 at a concrete input: a project absent from the
configuration permits nothing. -/
theorem C1_witness : is_forward [] "PROJ" "Open" "Done" = false :=
  C1_is_forward_spec.2.1 [] "PROJ" "Open" "Done" rfl

/-- Claim C2: for every pair considered, once its association has been
upserted a transition lookup or application is only attempted when the
stored live-association count for the issue is exactly one; with two
or more live associations no attempt is made. -/
theorem C2_multi_assoc_guard :
    ∀ (tm : TagMap) (nf : NomFlow) (dr : Bool) (st cid : String)
      (jira : JiraState) (db : Db) (ik res : String),
      ∀ e ∈ (processPair tm nf dr st cid jira db ik res).events,
        attemptsTransition e = true →
        countIssue (processPair tm nf dr st cid jira db ik res).db ik = 1 := by
  intro tm nf dr st cid jira db ik res
  simp only [processPair]
  split
  · intro e he
    simp at he
  · repeat' split
    all_goals intro e he ha
    all_goals
      (first
        | (simp_all [attemptsTransition]; done)
        | (have hpos := countIssue_pos_of_mem _ ik cid (mem_upsert db ik cid)
           simp only [countIssue] at *
           omega))

/-- Witness for C2 at a concrete input: the transition lookup happened
for PROJ-1, and the association count at that point is one. -/
theorem C2_witness :
    countIssue (processPair ⟨"Closed", "Resolved"⟩
        [("PROJ", [("Open", ["In Review"])])] false "NEW" "C1"
        ⟨[("PROJ-1", "Open")], [("PROJ-1", [("2", "Open -> In Review".toList)])],
          [], [], ["Done"]⟩
        ⟨[], [], []⟩ "PROJ-1" "Closed").db "PROJ-1" = 1 :=
  C2_multi_assoc_guard ⟨"Closed", "Resolved"⟩
    [("PROJ", [("Open", ["In Review"])])] false "NEW" "C1"
    ⟨[("PROJ-1", "Open")], [("PROJ-1", [("2", "Open -> In Review".toList)])],
      [], [], ["Done"]⟩
    ⟨[], [], []⟩ "PROJ-1" "Closed"
    (Event.lookedUp "PROJ-1" "In Review") (by decide) (by decide)

/-- Counterexample to claim C4 as stated: when the tracker rejects the
resolution-path transition of a MERGED change (the caught rejection,
logged as a spoofed transition), a transition-log entry is still
appended for that attempt. -/
theorem C4_counterexample :
    Event.spoofed "PROJ-1" "9" ∈
      (processChanges ⟨"Closed", "Resolved"⟩
        [("PROJ", [("In Review", ["Resolved"])])] false
        ⟨[("PROJ-1", "In Review")],
          [("PROJ-1", [("9", "In Review: Resolved".toList)])],
          ["PROJ-1"], [], ["Done"]⟩
        ⟨[], [], []⟩
        [⟨"MERGED", "C1", "r1", some ["Resolves: PROJ-1".toList]⟩]).events
  ∧ (processChanges ⟨"Closed", "Resolved"⟩
        [("PROJ", [("In Review", ["Resolved"])])] false
        ⟨[("PROJ-1", "In Review")],
          [("PROJ-1", [("9", "In Review: Resolved".toList)])],
          ["PROJ-1"], [], ["Done"]⟩
        ⟨[], [], []⟩
        [⟨"MERGED", "C1", "r1", some ["Resolves: PROJ-1".toList]⟩]).db.translog
      = [⟨"PROJ-1", "In Review", "Resolved"⟩] := by decide

/-- Claim C4 (amended): over any run, the transition log grows by
exactly the logged events, one per `transition_issue` execution — an
actual application or the caught resolution-path rejection, which the
code deliberately records as if applied; nothing is logged for skipped
pairs, and an uncaught plain-path rejection aborts the run without an
entry for that attempt. -/
theorem C4_amended_translog :
    ∀ (tm : TagMap) (nf : NomFlow) (dr : Bool) (jira : JiraState) (db : Db)
      (cs : List ChangeInfo),
      (processChanges tm nf dr jira db cs).db.translog
        = db.translog
          ++ ((processChanges tm nf dr jira db cs).events).filterMap loggedOf
    ∧ (((processChanges tm nf dr jira db cs).events).filter
          (fun e => appliesOrSpoofs e)).length
        = (((processChanges tm nf dr jira db cs).events).filterMap
            loggedOf).length := by
  intro tm nf dr jira db cs
  induction cs generalizing jira db with
  | nil => exact ⟨by simp [processChanges], rfl⟩
  | cons ci cs ih =>
    obtain ⟨h1, h2⟩ := processChange_translog tm nf dr jira db ci
    obtain ⟨g1, g2⟩ :=
      ih (processChange tm nf dr jira db ci).jira
        (processChange tm nf dr jira db ci).db
    simp only [processChanges]
    split
    · constructor
      · simp [List.filterMap_append, g1, h1, List.append_assoc]
      · simp [List.filter_append, List.filterMap_append, List.length_append,
          h2, g2]
    · exact ⟨h1, h2⟩

/-- Counterexample to claim C3 as stated: a dry run over an empty
store still inserts the association row for the Closes tag of a NEW
change, so the association upsert is not suppressed by the dry-run
flag. -/
theorem C3_counterexample :
    (increment_run ⟨"Closed", "Resolved"⟩ [("PROJ", [("Open", ["In Review"])])]
        true true
        ⟨[("PROJ-1", "Open")], [("PROJ-1", [("2", "Open -> In Review".toList)])],
          [], [], ["Done"]⟩
        ⟨[], [], []⟩
        [⟨"NEW", "C1", "r1", some ["Closes: PROJ-1".toList]⟩] 100 7).db.assocs
      = [("PROJ-1", "C1")] := by decide

/-- Claim C3 (amended): with the dry-run flag set, every check up
through transition discovery still runs, and no issue-tracker
transition is applied, no comment is posted, no transition-log entry
is appended and no checkpoint record is written; association upserts
and abandon-cleanup deletions, however, are still performed. -/
theorem C3_amended_dry_run :
    ∀ (tm : TagMap) (nf : NomFlow) (fo : Bool) (jira : JiraState) (db : Db)
      (cs : List ChangeInfo) (now wk : Int),
      (increment_run tm nf true fo jira db cs now wk).jira = jira
    ∧ (increment_run tm nf true fo jira db cs now wk).db.translog = db.translog
    ∧ (increment_run tm nf true fo jira db cs now wk).db.poll_history
        = db.poll_history
    ∧ ∀ e ∈ (increment_run tm nf true fo jira db cs now wk).events,
        dryAllowed e = true := by
  intro tm nf fo jira db cs now wk
  obtain ⟨h1, h2, h3, h4⟩ := update_issues_dry tm nf fo jira db cs
  have heq : increment_run tm nf true fo jira db cs now wk
      = update_issues_from_review tm nf true fo jira db cs := by
    simp [increment_run]
  rw [heq]
  exact ⟨h1, h2, h3, fun e he => List.all_eq_true.mp h4 e he⟩

/-- Witness for the amended C3 at a concrete input: the dry run left
the tracker untouched, and its inserted-association event is among the
dry-permitted ones. -/
theorem C3_witness :
    (increment_run ⟨"Closed", "Resolved"⟩ [("PROJ", [("Open", ["In Review"])])]
        true true
        ⟨[("PROJ-1", "Open")], [("PROJ-1", [("2", "Open -> In Review".toList)])],
          [], [], ["Done"]⟩
        ⟨[], [], []⟩
        [⟨"NEW", "C1", "r1", some ["Closes: PROJ-1".toList]⟩] 100 7).jira
      = ⟨[("PROJ-1", "Open")], [("PROJ-1", [("2", "Open -> In Review".toList)])],
          [], [], ["Done"]⟩
  ∧ dryAllowed (Event.insertedAssoc "PROJ-1" "C1") = true :=
  ⟨(C3_amended_dry_run ⟨"Closed", "Resolved"⟩
      [("PROJ", [("Open", ["In Review"])])] true
      ⟨[("PROJ-1", "Open")], [("PROJ-1", [("2", "Open -> In Review".toList)])],
        [], [], ["Done"]⟩
      ⟨[], [], []⟩
      [⟨"NEW", "C1", "r1", some ["Closes: PROJ-1".toList]⟩] 100 7).1,
    (C3_amended_dry_run ⟨"Closed", "Resolved"⟩
      [("PROJ", [("Open", ["In Review"])])] true
      ⟨[("PROJ-1", "Open")], [("PROJ-1", [("2", "Open -> In Review".toList)])],
        [], [], ["Done"]⟩
      ⟨[], [], []⟩
      [⟨"NEW", "C1", "r1", some ["Closes: PROJ-1".toList]⟩] 100 7).2.2.2
      (Event.insertedAssoc "PROJ-1" "C1") (by decide)⟩

/-- Claim C5: a MERGED change targets the tag-mapped state carried by
the pair built from the referencing tag; DRAFT targets In Progress;
every other status reaching the goal computation targets In Review; an
ABANDONED change only deletes its associations and yields no
transition activity. -/
theorem C5_goal_state_spec :
    (∀ r : String, goal_state_of "MERGED" r = r)
  ∧ (∀ r : String, goal_state_of "DRAFT" r = "In Progress")
  ∧ (∀ s r : String, s ≠ "MERGED" → s ≠ "DRAFT" →
        goal_state_of s r = "In Review")
  ∧ (∀ (tm : TagMap) (meta : MessageMeta), resolutionsOf tm meta =
        meta.Closes.map (fun i => (i.asString, tm.closes))
          ++ meta.Resolves.map (fun i => (i.asString, tm.resolves)))
  ∧ (∀ (tm : TagMap) (nf : NomFlow) (dr : Bool) (jira : JiraState) (db : Db)
        (ci : ChangeInfo), ci.status = "ABANDONED" →
        processChange tm nf dr jira db ci =
          ⟨deleteAssocsForChange db ci.change_id, jira,
            [Event.deletedAssocs ci.change_id], true⟩) := by
  refine ⟨fun r => rfl, fun r => rfl, ?_, fun tm meta => rfl, ?_⟩
  · intro s r h1 h2
    simp [goal_state_of, h1, h2]
  · intro tm nf dr jira db ci h
    simp [processChange, h]

/-- Witness for C5 at concrete inputs: a NEW change targets In Review,
and an ABANDONED change only deletes its associations. -/
theorem C5_witness :
    goal_state_of "NEW" "Resolved" = "In Review"
  ∧ processChange ⟨"Closed", "Resolved"⟩ [] false ⟨[], [], [], [], []⟩
      ⟨[("A-1", "C9")], [], []⟩ ⟨"ABANDONED", "C9", "r1", none⟩ =
      ⟨deleteAssocsForChange ⟨[("A-1", "C9")], [], []⟩ "C9", ⟨[], [], [], [], []⟩,
        [Event.deletedAssocs "C9"], true⟩ :=
  ⟨C5_goal_state_spec.2.2.1 "NEW" "Resolved" (by decide) (by decide),
    C5_goal_state_spec.2.2.2.2 ⟨"Closed", "Resolved"⟩ [] false
      ⟨[], [], [], [], []⟩ ⟨[("A-1", "C9")], [], []⟩
      ⟨"ABANDONED", "C9", "r1", none⟩ rfl⟩

/-- Claim C6: the association upsert is a no-op when the pair exists,
otherwise inserts exactly one row; it is idempotent; and every run
preserves the no-duplicate-rows invariant of the association table. -/
theorem C6_upsert_spec :
    (∀ (db : Db) (i c : String), countPair db i c ≠ 0 → upsertAssoc db i c = db)
  ∧ (∀ (db : Db) (i c : String), countPair db i c = 0 →
        (upsertAssoc db i c).assocs = db.assocs ++ [(i, c)])
  ∧ (∀ (db : Db) (i c : String),
        upsertAssoc (upsertAssoc db i c) i c = upsertAssoc db i c)
  ∧ (∀ (tm : TagMap) (nf : NomFlow) (dr : Bool) (jira : JiraState) (db : Db)
        (cs : List ChangeInfo), db.assocs.Nodup →
        (processChanges tm nf dr jira db cs).db.assocs.Nodup) := by
  refine ⟨?_, ?_, ?_, ?_⟩
  · intro db i c h
    simp [upsertAssoc, h]
  · intro db i c h
    simp [upsertAssoc, h]
  · intro db i c
    by_cases h : countPair db i c = 0
    · exact upsert_noop _ i c (countPair_upsert_ne db i c)
    · rw [upsert_noop db i c h, upsert_noop db i c h]
  · intro tm nf dr jira db cs h
    exact nodup_processChanges tm nf dr cs jira db h

/-- Witness for C6 at a concrete input: upserting an existing pair is
a no-op, and upserting into an empty store appends the one row. -/
theorem C6_witness :
    upsertAssoc ⟨[("A-1", "C1")], [], []⟩ "A-1" "C1" = ⟨[("A-1", "C1")], [], []⟩
  ∧ (upsertAssoc ⟨[], [], []⟩ "A-1" "C1").assocs = [] ++ [("A-1", "C1")] :=
  ⟨C6_upsert_spec.1 ⟨[("A-1", "C1")], [], []⟩ "A-1" "C1" (by decide),
    C6_upsert_spec.2.1 ⟨[], [], []⟩ "A-1" "C1" (by decide)⟩

/-- Counterexample to claim C7 as stated: on a fatal error (here a
gerrit fetch failure) the incremental poll still writes one checkpoint
record, with status -1, rather than writing nothing. -/
theorem C7_counterexample :
    (increment_run ⟨"Closed", "Resolved"⟩ [] false false
        ⟨[], [], [], [], ["Done"]⟩ ⟨[], [], []⟩ [] 100 7).db.poll_history
      = [⟨93, 100, -1⟩]
  ∧ (increment_run ⟨"Closed", "Resolved"⟩ [] false false
        ⟨[], [], [], [], ["Done"]⟩ ⟨[], [], []⟩ [] 100 7).ok = false := by
  decide

/-- Claim C7 (amended): a status 0 (SUCCESS) checkpoint record is
written exactly when the whole window was processed without fatal
error; on fatal error one record with status -1 is written instead,
and since non-zero statuses are never used as a window basis the
checkpoint is not advanced and the next poll recomputes the same,
now-larger, window. -/
theorem C7_amended_checkpoint :
    ∀ (tm : TagMap) (nf : NomFlow) (fo : Bool) (jira : JiraState) (db : Db)
      (cs : List ChangeInfo) (now wk : Int),
      ((increment_run tm nf false fo jira db cs now wk).ok = true →
        (increment_run tm nf false fo jira db cs now wk).db.poll_history
          = db.poll_history
            ++ [⟨next_window_start db.poll_history now wk, now, 0⟩]
        ∧ ∀ (n2 w2 : Int),
            next_window_start
              (increment_run tm nf false fo jira db cs now wk).db.poll_history
              n2 w2 = now)
    ∧ ((increment_run tm nf false fo jira db cs now wk).ok = false →
        (increment_run tm nf false fo jira db cs now wk).db.poll_history
          = db.poll_history
            ++ [⟨next_window_start db.poll_history now wk, now, -1⟩]
        ∧ ∀ (n2 w2 : Int),
            next_window_start
              (increment_run tm nf false fo jira db cs now wk).db.poll_history
              n2 w2 = next_window_start db.poll_history n2 w2) := by
  intro tm nf fo jira db cs now wk
  have hpoll := update_issues_poll tm nf false fo jira db cs
  constructor
  · intro hok
    have hok' : (update_issues_from_review tm nf false fo jira db cs).ok
        = true := by
      simpa [increment_run] using hok
    constructor
    · simp [increment_run, hok', hpoll]
    · intro n2 w2
      simp [increment_run, hok', hpoll, next_window_start, lastSuccess,
        List.filter_append]
  · intro hok
    have hok' : (update_issues_from_review tm nf false fo jira db cs).ok
        = false := by
      simpa [increment_run] using hok
    constructor
    · simp [increment_run, hok', hpoll]
    · intro n2 w2
      simp [increment_run, hok', hpoll, next_window_start, lastSuccess,
        List.filter_append]

/-- Witness for the amended C7 at a concrete input: a successful run
appends the status 0 record, and the next window starts at its end. -/
theorem C7_witness :
    (increment_run ⟨"Closed", "Resolved"⟩ [] false true
        ⟨[], [], [], [], ["Done"]⟩ ⟨[], [], []⟩ [] 100 7).db.poll_history
      = [⟨93, 100, 0⟩]
  ∧ next_window_start
      (increment_run ⟨"Closed", "Resolved"⟩ [] false true
        ⟨[], [], [], [], ["Done"]⟩ ⟨[], [], []⟩ [] 100 7).db.poll_history
      200 7 = 100 := by
  have h := (C7_amended_checkpoint ⟨"Closed", "Resolved"⟩ [] true
      ⟨[], [], [], [], ["Done"]⟩ ⟨[], [], []⟩ [] 100 7).1 (by decide)
  exact ⟨by simpa [next_window_start, lastSuccess] using h.1, h.2 200 7⟩

/-- Claim C8: the next poll window starts at the `period_end` of the
most recent SUCCESS (status 0) record, defaults to now minus the
lookback when no SUCCESS record exists, and records with any other
status are never used as the basis. -/
theorem C8_next_window_spec :
    (∀ (h : List PollRecord) (now wk : Int),
        h.filter (fun r => r.status == 0) = [] →
        next_window_start h now wk = now - wk)
  ∧ (∀ (h : List PollRecord) (now wk : Int) (r : PollRecord),
        lastSuccess h = some r → next_window_start h now wk = r.period_end)
  ∧ (∀ (h : List PollRecord) (now wk : Int) (r : PollRecord), r.status ≠ 0 →
        next_window_start (h ++ [r]) now wk = next_window_start h now wk)
  ∧ (∀ (h : List PollRecord) (r : PollRecord), r.status = 0 →
        lastSuccess (h ++ [r]) = some r) := by
  refine ⟨?_, ?_, ?_, ?_⟩
  · intro h now wk hf
    simp [next_window_start, lastSuccess, hf]
  · intro h now wk r hr
    simp [next_window_start, hr]
  · intro h now wk r hr
    simp [next_window_start, lastSuccess, List.filter_append, hr]
  · intro h r hr
    simp [lastSuccess, List.filter_append, hr]

/-- Witness for C8 at concrete inputs: resumption from the latest
SUCCESS record, and the one-week-style default with empty history. -/
theorem C8_witness :
    next_window_start [⟨0, 42, 0⟩, ⟨42, 50, -1⟩] 100 7 = 42
  ∧ next_window_start [] 100 7 = 100 - 7 :=
  ⟨C8_next_window_spec.2.1 [⟨0, 42, 0⟩, ⟨42, 50, -1⟩] 100 7 ⟨0, 42, 0⟩ (by decide),
    C8_next_window_spec.1 [] 100 7 rfl⟩

/-- Claim C9: the tag extractor splits each line at its first colon,
matches keys case-sensitively, ignores lines without a colon or with
an unrecognized key, parses Closes and Resolves values as
comma-separated lists of individually trimmed entries, and accumulates
repeated keys into one list in encounter order. -/
theorem C9_message_meta_spec :
    (∀ (m : MessageMeta) (line : List Char), splitOnceColon line = none →
        metaStep m line = m)
  ∧ (∀ (m : MessageMeta) (line : List Char) (kv : List Char × List Char),
        splitOnceColon line = some kv → kv.1 ∉ recognizedKeys →
        metaStep m line = m)
  ∧ (∀ (key value : List Char), ':' ∉ key →
        splitOnceColon (key ++ ':' :: value) = some (key, value))
  ∧ (∀ (lines : List (List Char)), (get_message_meta lines).Resolves
        = (lines.map resolvesContrib).flatten)
  ∧ (∀ (lines : List (List Char)), (get_message_meta lines).Closes
        = (lines.map closesContrib).flatten)
  ∧ (∀ (value x : List Char), x ∈ parseIssueList value → strip x = x)
  ∧ metaStep {} "closes: A-1".toList = {}
  ∧ (get_message_meta ["Resolves: A-1 , A-2".toList, "junk line".toList,
        "Resolves:A-3".toList]).Resolves
      = ["A-1".toList, "A-2".toList, "A-3".toList] := by
  refine ⟨?_, ?_, splitOnceColon_append, ?_, ?_, parseIssueList_trimmed,
    by decide, by decide⟩
  · intro m line h
    simp [metaStep, h]
  · intro m line kv hsp hk
    have h1 : ¬(kv.1 = "Feature-Branch".toList) :=
      fun e => hk (by simp [recognizedKeys, e])
    have h2 : ¬(kv.1 = "Base-Branch".toList) :=
      fun e => hk (by simp [recognizedKeys, e])
    have h3 : ¬(kv.1 = "Relative-To-Branch".toList) :=
      fun e => hk (by simp [recognizedKeys, e])
    have h4 : ¬(kv.1 = "ChangeId".toList) :=
      fun e => hk (by simp [recognizedKeys, e])
    have h5 : ¬(kv.1 = "Closes".toList) :=
      fun e => hk (by simp [recognizedKeys, e])
    have h6 : ¬(kv.1 = "Resolves".toList) :=
      fun e => hk (by simp [recognizedKeys, e])
    simp only [metaStep, hsp]
    rw [if_neg h1, if_neg h2, if_neg h3, if_neg h4, if_neg h5, if_neg h6]
  · intro lines
    simpa [get_message_meta] using foldl_metaStep_Resolves lines {}
  · intro lines
    simpa [get_message_meta] using foldl_metaStep_Closes lines {}

/-- Witness for C9 at concrete inputs: the first-colon split on a
Closes line, and a trimmed entry of a comma-separated value. -/
theorem C9_witness :
    splitOnceColon ("Closes".toList ++ ':' :: " A-1".toList)
      = some ("Closes".toList, " A-1".toList)
  ∧ strip "A-1".toList = "A-1".toList :=
  ⟨C9_message_meta_spec.2.2.1 "Closes".toList " A-1".toList (by decide),
    C9_message_meta_spec.2.2.2.2.2.1 " A-1 , A-2".toList "A-1".toList (by decide)⟩

/-- Claim C10: the transition finder extracts the destination name
from either the colon or the arrow name format (equivalent inputs in
the two formats yield the identical destination), returns none exactly
when no observed destination equals the target, returns the id of a
transition whose destination equals the target otherwise, and reports
every observed destination name. -/
theorem C10_get_transition_to_spec :
    (∀ (f t : List Char), ':' ∉ f →
        parseDest (f ++ ':' :: ' ' :: t) = some (strip t))
  ∧ (∀ (f t : List Char), ':' ∉ f → ':' ∉ t → splitFirstArrow f = none →
        parseDest (f ++ ' ' :: '-' :: '>' :: ' ' :: t) = some (strip t))
  ∧ (∀ (ts : List (String × List Char)) (target : List Char),
        ((get_transition_to ts target).1 = none ↔
          target ∉ (get_transition_to ts target).2))
  ∧ (∀ (ts : List (String × List Char)) (target : List Char) (tid : String),
        (get_transition_to ts target).1 = some tid →
        ∃ name, (tid, name) ∈ ts ∧ parseDest name = some target)
  ∧ (∀ (ts : List (String × List Char)) (target : List Char),
        (get_transition_to ts target).2
          = ts.filterMap fun t => parseDest t.2) := by
  refine ⟨parseDest_colon, parseDest_arrow, ?_, ?_, ?_⟩
  · intro ts target
    rw [get_transition_to, gtt_fst_none, gtt_snd]
    simp [List.mem_filterMap]
  · intro ts target tid h
    rw [get_transition_to] at h
    rcases gtt_fst_some target ts (none, []) tid h with h1 | h2
    · simp at h1
    · exact h2
  · intro ts target
    rw [get_transition_to, gtt_snd]
    rfl

/-- Witness for C10 at a concrete input: the two historical name
formats of the same transition give the identical destination. -/
theorem C10_witness :
    parseDest ("Open".toList ++ ':' :: ' ' :: "In Review".toList)
      = some (strip "In Review".toList)
  ∧ parseDest ("Open".toList ++ ' ' :: '-' :: '>' :: ' ' :: "In Review".toList)
      = some (strip "In Review".toList) :=
  ⟨C10_get_transition_to_spec.1 "Open".toList "In Review".toList (by decide),
    C10_get_transition_to_spec.2.1 "Open".toList "In Review".toList
      (by decide) (by decide) (by decide)⟩

end FlowTools
